import Mathlib

/-!
Shallow embedding of the cyrag retrieval pipeline.

Python strings are modelled as lists of characters (`Str`), dictionaries as
association lists, floats (similarity scores) as rationals, and exceptions as
`Except`.  The functions below are translated from the repository sources:
`src/data/text_splitter.py`, `src/utils/metadata.py`, `src/qdrant/collection.py`
and `src/rag/query.py`.  External collaborators (the qdrant backend, the
embedding model, the langchain text splitter and the LLM chain) are not part of
the repository source; where their behaviour decides a property they are
modelled from the specification and marked `Modelled from the spec:`.
-/

namespace Cyrag

/-- Python strings are modelled as lists of characters. -/
abbrev Str := List Char

/-- Metadata / payload values: strings, integers, or lists of strings. -/
inductive MVal where
  | s (v : Str)
  | n (v : Nat)
  | list (v : List Str)
deriving DecidableEq

/-- Python dict assignment `m[k] = v`: the new binding shadows any old one. -/
def setKey (m : List (String × MVal)) (k : String) (v : MVal) : List (String × MVal) :=
  (k, v) :: m.filter (fun p => p.1 != k)

/-- Index of the first occurrence of `needle` in `hay`, if any. -/
def firstOccur (needle : Str) : Str → Option Nat
  | [] => if needle.isPrefixOf [] then some 0 else none
  | c :: t =>
    if needle.isPrefixOf (c :: t) then some 0
    else (firstOccur needle t).map (· + 1)

/-- Python substring membership `needle in hay`. -/
def containsSub (needle hay : Str) : Bool :=
  (firstOccur needle hay).isSome

/-- Python `hay.find(needle, start)`: clamps a negative start to `len + start`
(floored at 0), returns -1 when the needle does not occur at or after `start`. -/
def pyFind (hay needle : Str) (start : Int) : Int :=
  let s : Nat := if start < 0 then (start + hay.length).toNat else start.toNat
  if hay.length < s then -1
  else
    match firstOccur needle (hay.drop s) with
    | some p => ((s + p : Nat) : Int)
    | none => -1

/-- Stable insertion: `x` is placed before the first element `y` with
`le x y`, after every `y` with `le x y = false`. -/
def insertLe (le : α → α → Bool) (x : α) : List α → List α
  | [] => [x]
  | y :: ys => if le x y then x :: y :: ys else y :: insertLe le x ys

/-- Stable sort by `le` (insertion sort; any stable sort has the same output). -/
def sortLe (le : α → α → Bool) : List α → List α
  | [] => []
  | x :: xs => insertLe le x (sortLe le xs)

/-! Part: Metadata extractor (src/utils/metadata.py) -/

/-- Word constituent for the regex word-boundary `\b` (letters, digits, underscore). -/
def wordChar (c : Char) : Bool := c.isAlphanum || c == '_'

/-- A word boundary sits between two positions exactly when one side is a word
character and the other is not (absent neighbours count as non-word). -/
def boundaryOk (left right : Option Char) : Bool :=
  (match left with | some c => wordChar c | none => false)
    != (match right with | some c => wordChar c | none => false)

/-- Scanner for `len(re.findall(r'\b' + re.escape(term) + r'\b', content))`:
counts non-overlapping whole-word occurrences of `term`, left to right.
`prev` is the character just before the current position; `fuel` bounds the
scan (initialised to more than the text length, so it never runs out). -/
def countAux (term : Str) : Nat → Option Char → Str → Nat
  | 0, _, _ => 0
  | fuel + 1, prev, rest =>
    if term != [] && term.isPrefixOf rest
        && boundaryOk prev term.head?
        && boundaryOk term.getLast? (rest.drop term.length).head? then
      1 + countAux term fuel term.getLast? (rest.drop term.length)
    else
      match rest with
      | [] => 0
      | c :: t => countAux term fuel (some c) t

/-- Whole-word, case-sensitive occurrence count of `term` in `content`. -/
def countMatches (term content : Str) : Nat :=
  countAux term (content.length + 1) none content

/-- List of Cyanview products to identify in content. -/
def CYANVIEW_PRODUCTS : List Str :=
  [ "RCP".data, "Remote Control Panel".data,
    "CI0".data, "Camera Interface".data,
    "RIO".data, "Remote I/O".data,
    "RIO Live".data, "RIO-Live".data,
    "VP4".data, "Video Processor".data,
    "NIO".data, "Network I/O".data,
    "GWY".data, "External Gateway".data,
    "CY-RSBM".data, "CY-CI0BM".data,
    "CY-TALLY-BOX".data ]

/-- Key topics within Cyanview documentation. -/
def CYANVIEW_TOPICS : List Str :=
  [ "Camera Control".data, "Lens Control".data, "Tally".data, "REMI".data,
    "Remote Production".data,
    "Color Correction".data, "Shading".data, "Integration".data, "PTZ".data,
    "Gimbal".data,
    "IP Control".data, "Serial Control".data, "SDI Control".data,
    "USB Control".data,
    "Wireless Control".data, "API".data, "Firmware".data, "Configuration".data ]

/-- Descending comparison on the occurrence count attached to a term
(`list.sort(key=lambda x: x[1], reverse=True)` is a stable descending sort). -/
def countLe (a b : Str × Nat) : Bool := decide (b.2 ≤ a.2)

/-- One step of the term-collection loop: keep a term with its count when the
count is positive. -/
def pairIfFound (content : Str) (t : Str) : Option (Str × Nat) :=
  let c := countMatches t content
  if 0 < c then some (t, c) else none

/-- Products mentioned in `content`, most frequent first, stable ties. -/
def extract_product_references (content : Str) : List Str :=
  (sortLe countLe (CYANVIEW_PRODUCTS.filterMap (pairIfFound content))).map Prod.fst

/-- Topics mentioned in `content`, most frequent first, stable ties. -/
def extract_topics (content : Str) : List Str :=
  (sortLe countLe (CYANVIEW_TOPICS.filterMap (pairIfFound content))).map Prod.fst

/-- ASCII upper-case letter (the regex class `[A-Z]`). -/
def upperAZ (c : Char) : Bool := 'A' ≤ c && c ≤ 'Z'

/-- Python regex whitespace `\s` on ASCII text. -/
def pySpace (c : Char) : Bool :=
  c == ' ' || c == '\t' || c == '\n' || c == '\r'
    || c == Char.ofNat 11 || c == Char.ofNat 12

/-- After at least one whitespace character: skip further whitespace and
demand an upper-case letter (the regex tail `\s+[A-Z]` after its first space). -/
def spacesThenUpper : Str → Bool
  | [] => false
  | c :: t => if upperAZ c then true else if pySpace c then spacesThenUpper t else false

/-- Match of `\s+[A-Z]` at the start of the text. -/
def afterQmark : Str → Bool
  | [] => false
  | c :: t => pySpace c && spacesThenUpper t

/-- Scan for the fallback pattern `\?\s+[A-Z]` anywhere in the text. -/
def qaScanFallback : Str → Bool
  | [] => false
  | c :: t => (c == '?' && afterQmark t) || qaScanFallback t

/-- Marker `Q:` of the Q&A regex (no trailing space). -/
def qColon : Str := "Q:".data

/-- Marker `A:` of the Q&A regex (no trailing space). -/
def aColon : Str := "A:".data

/-- Detection of question/answer content: the regex `Q:.*?A:` with DOTALL
(some `Q:` followed anywhere later by `A:`), or the heuristic fallback
`\?\s+[A-Z]` (a question mark, whitespace, then a capitalised word). -/
def is_qa_content (content : Str) : Bool :=
  (match firstOccur qColon content with
   | some i => containsSub aColon (content.drop (i + 2))
   | none => false)
  || qaScanFallback content

/-- Derived metadata of a text: primary and all products, primary and all
topics, and the Q&A type tag. -/
def extract_metadata_from_content (content : Str) : List (String × MVal) :=
  let metadata : List (String × MVal) := []
  let products := extract_product_references content
  let metadata := match products with
    | [] => metadata
    | p :: _ => setKey (setKey metadata ("product") (MVal.s p)) ("all_products") (MVal.list products)
  let topics := extract_topics content
  let metadata := match topics with
    | [] => metadata
    | t :: _ => setKey (setKey metadata ("topic") (MVal.s t)) ("all_topics") (MVal.list topics)
  if is_qa_content content then setKey metadata ("type") (MVal.s ("qa".data)) else metadata

/-! Part: Chunker (src/data/text_splitter.py)

`split_documents` drives the langchain `RecursiveCharacterTextSplitter`, an
external dependency whose code is not in the repository.  The splitter below is
therefore `Modelled from the spec:` recursive splitting along the prioritised
separator list, pieces merged greedily up to `chunk_size`, hard character
slicing as the final fallback, and adjacent chunks overlapping by
`chunk_overlap` characters of the original text. -/

/-- Split at every occurrence of `sep`, attaching the separator to the piece
that follows it; the pieces concatenate back to the input.  `fuel` bounds the
recursion (initialised to more than the text length, so it never runs out). -/
def splitKeepAux (sep : Str) : Nat → Str → List Str
  | 0, text => [text]
  | fuel + 1, text =>
    match firstOccur sep text with
    | none => [text]
    | some p =>
      match splitKeepAux sep fuel (text.drop (p + sep.length)) with
      | [] => [text.take p]
      | q :: qs => text.take p :: (sep ++ q) :: qs

/-- Split `text` at every occurrence of `sep`, keeping separators. -/
def splitKeep (sep : Str) (text : Str) : List Str :=
  splitKeepAux sep (text.length + 1) text

/-- Hard character slicing into pieces of at most `size` characters
(the character-level fallback).  `fuel` bounds the recursion. -/
def chunksOfAux (size : Nat) : Nat → Str → List Str
  | 0, text => if text = [] then [] else [text]
  | fuel + 1, text =>
    if text = [] then []
    else if size = 0 then [text]
    else text.take size :: chunksOfAux size fuel (text.drop size)

/-- Hard character slicing into pieces of at most `size` characters. -/
def chunksOf (size : Nat) (text : Str) : List Str :=
  chunksOfAux size text.length text

/-- Greedy merge step: extend the current group while it stays within `size`,
otherwise flush it and start a new group with the incoming piece. -/
def gmAux (size : Nat) : Str → List Str → List Str
  | cur, [] => if cur = [] then [] else [cur]
  | cur, p :: ps =>
    if cur = [] then gmAux size p ps
    else if cur.length + p.length ≤ size then gmAux size (cur ++ p) ps
    else cur :: gmAux size p ps

/-- Merge consecutive pieces greedily into groups of at most `size` characters
(a single oversized piece forms its own group). -/
def greedyMerge (size : Nat) (pieces : List Str) : List Str :=
  gmAux size [] pieces

/-- Modelled from the spec: the recursive splitter of the external langchain
dependency.  Try the separators in priority order; any group that still
exceeds `chunk_size` is split again with the remaining separators; when no
separator is left, fall back to hard character slicing. -/
def recSplit (size : Nat) : List Str → Str → List Str
  | [], text => chunksOf size text
  | sep :: rest, text =>
    if text.length ≤ size then [text]
    else
      (greedyMerge size (splitKeep sep text)).flatMap
        (fun g => if g.length ≤ size then [g] else recSplit size rest g)

/-- Technical documentation-specific separators, in priority order; the final
character-level fallback is the empty-separator base case of `recSplit`. -/
def SEPS : List Str :=
  [ "\n## ".data, "\n### ".data, "\n#### ".data,
    "\n- ".data, "\n* ".data, "\n1. ".data,
    "\n\n".data, "\n".data,
    ". ".data, "? ".data, "! ".data,
    ";".data, ":".data, " ".data ]

/-- Modelled from the spec: extend every chunk after the first backwards by
`overlap` characters of the original text.  `pos` is the start position of the
incoming chunk within `text`. -/
def withOverlap (overlap : Nat) (text : Str) : Nat → List Str → List Str
  | _, [] => []
  | pos, c :: cs =>
    let o := min overlap pos
    ((text.drop (pos - o)).take o ++ c) :: withOverlap overlap text (pos + c.length) cs

/-- Overlap amount given to each chunk by `withOverlap` (0 for the first). -/
def overlapAmounts (overlap : Nat) : Nat → List Str → List Nat
  | _, [] => []
  | pos, c :: cs => min overlap pos :: overlapAmounts overlap (pos + c.length) cs

/-- Modelled from the spec: `RecursiveCharacterTextSplitter.split_text` with
the separator list of `split_documents`. -/
def splitText (chunk_size chunk_overlap : Nat) (text : Str) : List Str :=
  withOverlap chunk_overlap text 0 (recSplit chunk_size SEPS text)

/-- Overlap amounts of the chunks of `splitText` on the same input. -/
def chunkOverlapAmounts (chunk_size chunk_overlap : Nat) (text : Str) : List Nat :=
  overlapAmounts chunk_overlap 0 (recSplit chunk_size SEPS text)

/-- Question marker used by the Q&A repair. -/
def qMarker : Str := "Q: ".data

/-- Answer marker used by the Q&A repair. -/
def aMarker : Str := "A: ".data

/-- Truncation ellipsis appended to a repaired chunk. -/
def ellipsis : Str := "...".data

/-- Value of the `type` metadata key marking Q&A documents. -/
def qaTag : MVal := MVal.s ("qa".data)

/-- A document: text plus metadata. -/
structure PyDoc where
  page_content : Str
  metadata : List (String × MVal)
deriving DecidableEq

/-- Q&A repair of one chunk: when the parent document is of type `qa` and the
chunk holds a question marker but no answer marker, find the answer in the
original text after the question and rebuild the chunk as the question, a
newline, and an excerpt of at most 200 characters plus an ellipsis. -/
def qaAdjust (metadata : List (String × MVal)) (full_text chunk_text : Str) : Str :=
  if metadata.lookup ("type") = some qaTag
      ∧ containsSub qMarker chunk_text = true
      ∧ containsSub aMarker chunk_text = false then
    let question := chunk_text.drop (pyFind chunk_text qMarker 0).toNat
    let answer_start := pyFind full_text aMarker (pyFind full_text question 0)
    if answer_start = -1 then chunk_text
    else
      let a := answer_start.toNat
      let answer_text := (full_text.drop a).take (min 200 (full_text.length - a))
      question ++ '\n' :: (answer_text ++ ellipsis)
  else chunk_text

/-- Chunks of one document: split the text, then attach the inherited metadata
plus the `chunk` ordinal and the `chunk_total` sibling count, applying the Q&A
repair to each chunk text. -/
def splitDocument (chunk_size chunk_overlap : Nat) (doc : PyDoc) : List PyDoc :=
  let doc_chunks := splitText chunk_size chunk_overlap doc.page_content
  doc_chunks.enum.map (fun p =>
    let chunk_metadata :=
      setKey (setKey doc.metadata ("chunk") (MVal.n p.1)) ("chunk_total") (MVal.n doc_chunks.length)
    { page_content := qaAdjust doc.metadata doc.page_content p.2,
      metadata := chunk_metadata })

/-- `split_documents`: chunks of every document, in document order. -/
def split_documents (chunk_size chunk_overlap : Nat) (documents : List PyDoc) : List PyDoc :=
  documents.flatMap (splitDocument chunk_size chunk_overlap)

/-! Part: Vector index (src/qdrant/collection.py) -/

/-- Errors of the error taxonomy, as carried by `Except`. -/
inductive PyErr where
  | retrievalError
  | configurationError
  | otherError
deriving DecidableEq

/-- A stored point as seen by one query: its id, its similarity score for the
query vector (cosine similarity abstracted to a rational), and its payload. -/
structure ScoredPoint where
  id : Nat
  score : ℚ
  payload : List (String × MVal)
deriving DecidableEq

/-- Conjunction of exact-match conditions over payload fields
(`models.Filter` with a `must` list of `FieldCondition`/`MatchValue`). -/
def filterMatches (qf : Option (List (String × MVal))) (payload : List (String × MVal)) : Bool :=
  match qf with
  | none => true
  | some conds => conds.all (fun kv => payload.lookup kv.1 == some kv.2)

/-- Minimum-score cutoff: absent threshold admits everything. -/
def thresholdOk (th : Option ℚ) (p : ScoredPoint) : Bool :=
  match th with
  | none => true
  | some t => decide (t ≤ p.score)

/-- Result order of the backend: descending similarity, ties by ascending id. -/
def pointLe (a b : ScoredPoint) : Bool :=
  decide (b.score < a.score ∨ (a.score = b.score ∧ a.id ≤ b.id))

/-- Modelled from the spec: the qdrant backend search (`client.search`), an
external service.  It keeps the points passing the filter and the score
threshold, orders them by descending similarity with ties broken by ascending
id, and returns at most `limit` of them. -/
def clientSearch (store : List ScoredPoint) (query_filter : Option (List (String × MVal)))
    (limit : Nat) (score_threshold : Option ℚ) : List ScoredPoint :=
  (sortLe pointLe
    (store.filter (fun p => filterMatches query_filter p.payload && thresholdOk score_threshold p))).take limit

/-- `search_vectors`: build the search parameters (a filter only when
`filter_params` is truthy, the threshold only when supplied) and return the
backend results as id/score/payload records, in backend order. -/
def search_vectors (store : List ScoredPoint) (filter_params : Option (List (String × MVal)))
    (top_k : Nat) (score_threshold : Option ℚ) : List ScoredPoint :=
  clientSearch store
    (match filter_params with
     | some fp => if fp = [] then none else some fp
     | none => none)
    top_k score_threshold

/-- A collection, as created by `create_collection`: name, vector dimension,
and equality-indexed payload fields. -/
structure CollectionRec where
  name : String
  vectorSize : Int
  indexedFields : List String
deriving DecidableEq

/-- `create_collection` over the backend collection state: an existing name is
left untouched unless `recreate` is set, in which case it is dropped and
recreated; otherwise the collection is created with the given vector size and
payload indexes on `product` and `type`.  The vector size is passed through
unvalidated. -/
def create_collection (collections : List CollectionRec) (vector_size : Int)
    (collection_name : String) (recreate : Bool) : Except PyErr (List CollectionRec) :=
  let collection_names := collections.map (fun c => c.name)
  if collection_name ∈ collection_names then
    if recreate then
      Except.ok ((collections.filter (fun c => c.name != collection_name))
        ++ [⟨collection_name, vector_size, ["product", "type"]⟩])
    else
      Except.ok collections
  else
    Except.ok (collections ++ [⟨collection_name, vector_size, ["product", "type"]⟩])

/-! Part: Retrieval orchestrator (src/rag/query.py)

The embedding model and the backend are external collaborators; the outcome of
the `search_vectors` call for the query at hand is passed as a parameter
(`Except.error` when the search raises).  The LLM chain of `get_llm_chain` is
likewise a parameter: `none` when no provider is configured, otherwise a
function that may fail. -/

/-- One retrieved context entry of `query_qdrant` (text, source, product,
score, id). -/
structure CtxDoc where
  text : Str
  source : Str
  product : Str
  score : ℚ
  id : Nat
deriving DecidableEq

/-- Payload values reach f-strings as text; the payloads built by this
pipeline only ever hold strings in the fields read here. -/
def strOf : MVal → Str
  | MVal.s t => t
  | MVal.n k => Nat.toDigits 10 k
  | MVal.list _ => []

/-- Python `payload.get(k, "")`. -/
def getStr (payload : List (String × MVal)) (k : String) : Str :=
  match payload.lookup k with
  | some v => strOf v
  | none => []

/-- `query_qdrant` after the backend call: keep only hits whose payload has a
`text` key, shaping each into a context entry; a raised search error
propagates (the source has no handler around the call). -/
def query_qdrant (searchOutcome : Except PyErr (List ScoredPoint)) : Except PyErr (List CtxDoc) :=
  match searchOutcome with
  | Except.error e => Except.error e
  | Except.ok rs =>
    Except.ok (rs.filterMap (fun r =>
      match r.payload.lookup ("text") with
      | some v => some ⟨strOf v, getStr r.payload ("source"), getStr r.payload ("product"), r.score, r.id⟩
      | none => none))

/-- Decimal rendering of the score with two digits after the point
(models the f-string `{score:.2f}`; rounding detail is immaterial here). -/
def formatScore (q : ℚ) : Str :=
  let c : Int := Int.fdiv (q.num * 200 + q.den) (2 * q.den)
  let a := c.natAbs
  let sign : Str := if c < 0 then ['-'] else []
  let frac := a % 100
  sign ++ Nat.toDigits 10 (a / 100)
    ++ '.' :: (if frac < 10 then '0' :: Nat.toDigits 10 frac else Nat.toDigits 10 frac)

/-- Python `source.split("/")[-1]`: the part after the last slash. -/
def lastAfterSlash (s : Str) : Str :=
  (s.reverse.takeWhile (fun c => c != '/')).reverse

/-- `format_context`: each result becomes a labelled block with the source
basename, the optional product tag and the score, followed by the text; the
blocks are joined with a newline. -/
def format_context (results : List CtxDoc) : Str :=
  List.intercalate ("\n".data)
    (results.enum.map (fun p =>
      let source :=
        if p.2.source = [] then ("Document ".data) ++ Nat.toDigits 10 (p.1 + 1)
        else lastAfterSlash p.2.source
      let product :=
        if p.2.product = [] then [] else (" [".data) ++ p.2.product ++ ("]".data)
      ("[Source: ".data) ++ source ++ product ++ (", Score: ".data)
        ++ formatScore p.2.score ++ ("]\n".data) ++ p.2.text ++ ("\n\n".data)))

/-- The context bundle returned by `rag_query`. -/
structure Bundle where
  query : Str
  context : Str
  sources : List Str
  answer : Option Str
deriving DecidableEq

/-- Canned answer returned when no relevant document is found. -/
def cannedNoInfo : Str :=
  "I couldn".data ++ Char.ofNat 39 ::
    "t find any relevant information to answer your question about Cyanview systems.".data

/-- Placeholder substituted when answer generation raises. -/
def answerErrorPlaceholder : Str :=
  "Error generating answer based on the retrieved context.".data

/-- `rag_query`: search, degrade to a canned bundle on zero usable results,
otherwise assemble context and sources and optionally generate an answer;
a generation failure is absorbed into a placeholder, a search failure is not
caught anywhere in this function. -/
def rag_query (searchOutcome : Except PyErr (List ScoredPoint))
    (llm_chain : Option (Str → Str → Except PyErr Str)) (query_text : Str) :
    Except PyErr Bundle :=
  match query_qdrant searchOutcome with
  | Except.error e => Except.error e
  | Except.ok search_results =>
    if search_results = [] then
      Except.ok ⟨query_text, [], [], some cannedNoInfo⟩
    else
      let context := format_context search_results
      let sources := search_results.map (fun r => r.source)
      match llm_chain with
      | none => Except.ok ⟨query_text, context, sources, none⟩
      | some chain =>
        match chain context query_text with
        | Except.ok answer => Except.ok ⟨query_text, context, sources, some answer⟩
        | Except.error _ => Except.ok ⟨query_text, context, sources, some answerErrorPlaceholder⟩

/-- Whether an `Except` result is a success. -/
def exceptIsOk : Except ε α → Bool
  | Except.ok _ => true
  | Except.error _ => false

/-! Part: Lemmas about the string primitives -/

theorem firstOccur_occurs_at {needle : Str} :
    ∀ {hay : Str} {p : Nat}, firstOccur needle hay = some p → needle <+: hay.drop p := by
  intro hay
  induction hay with
  | nil =>
    intro p h
    simp only [firstOccur] at h
    split at h
    · cases h
      simp only [List.drop_nil]
      exact List.isPrefixOf_iff_prefix.mp (by assumption)
    · cases h
  | cons c t ih =>
    intro p h
    simp only [firstOccur] at h
    split at h
    · cases h
      exact List.isPrefixOf_iff_prefix.mp (by assumption)
    · rcases Option.map_eq_some'.mp h with ⟨q, hq, rfl⟩
      simpa using ih hq

theorem firstOccur_add_length_le {needle : Str} :
    ∀ {hay : Str} {p : Nat}, firstOccur needle hay = some p → p + needle.length ≤ hay.length := by
  intro hay
  induction hay with
  | nil =>
    intro p h
    simp only [firstOccur] at h
    split at h
    · cases h
      have := ( List.isPrefixOf_iff_prefix.mp (by assumption)).length_le
      simpa using this
    · cases h
  | cons c t ih =>
    intro p h
    simp only [firstOccur] at h
    split at h
    · cases h
      have := ( List.isPrefixOf_iff_prefix.mp (by assumption)).length_le
      simpa using this
    · rcases Option.map_eq_some'.mp h with ⟨q, hq, rfl⟩
      have := ih hq
      simp only [List.length_cons]
      omega

theorem firstOccur_decomp {needle hay : Str} {p : Nat}
    (h : firstOccur needle hay = some p) :
    hay = hay.take p ++ needle ++ hay.drop (p + needle.length) := by
  rcases firstOccur_occurs_at h with ⟨tail, htail⟩
  have h2 : tail = hay.drop (p + needle.length) := by
    have hd : (needle ++ tail).drop needle.length = tail := by simp
    rw [htail] at hd
    rw [← hd, List.drop_drop, Nat.add_comm]
  calc hay = hay.take p ++ hay.drop p := (List.take_append_drop p hay).symm
    _ = hay.take p ++ (needle ++ tail) := by rw [htail]
    _ = hay.take p ++ needle ++ hay.drop (p + needle.length) := by
          rw [h2, List.append_assoc]

theorem pyFind_found {hay needle : Str} {start : Int}
    (hne : pyFind hay needle start ≠ -1) :
    0 ≤ pyFind hay needle start
      ∧ needle <+: hay.drop (pyFind hay needle start).toNat := by
  revert hne
  unfold pyFind
  set s : Nat := if start < 0 then (start + hay.length).toNat else start.toNat with hs
  by_cases hlen : hay.length < s
  · intro hne
    simp [hlen] at hne
  · rw [if_neg hlen]
    cases hocc : firstOccur needle (hay.drop s) with
    | none =>
      intro hne
      simp at hne
    | some p =>
      intro _
      refine ⟨Int.natCast_nonneg (s + p), ?_⟩
      have h2 := firstOccur_occurs_at hocc
      rw [List.drop_drop] at h2
      show needle <+: hay.drop (((s + p : Nat) : Int)).toNat
      rw [Int.toNat_natCast]
      exact h2

/-! Part: Lemmas about the stable sort -/

theorem insertLe_perm (le : α → α → Bool) (x : α) (l : List α) :
    List.Perm (insertLe le x l) (x :: l) := by
  induction l with
  | nil => exact List.Perm.refl _
  | cons y ys ih =>
    simp only [insertLe]
    split
    · exact List.Perm.refl _
    · exact (List.Perm.cons y ih).trans (List.Perm.swap x y ys)

theorem sortLe_perm (le : α → α → Bool) (l : List α) : List.Perm (sortLe le l) l := by
  induction l with
  | nil => exact List.Perm.refl _
  | cons x xs ih =>
    exact (insertLe_perm le x (sortLe le xs)).trans (List.Perm.cons x ih)

theorem mem_insertLe {le : α → α → Bool} {x z : α} {l : List α} :
    z ∈ insertLe le x l ↔ z = x ∨ z ∈ l := by
  rw [(insertLe_perm le x l).mem_iff, List.mem_cons]

theorem pairwise_insertLe (le : α → α → Bool)
    (htot : ∀ a b, le a b = false → le b a = true)
    (htrans : ∀ a b c, le a b = true → le b c = true → le a c = true)
    (x : α) : ∀ {l : List α}, l.Pairwise (fun a b => le a b = true) →
      (insertLe le x l).Pairwise (fun a b => le a b = true) := by
  intro l
  induction l with
  | nil => intro _; simp [insertLe]
  | cons y ys ih =>
    intro hp
    rcases List.pairwise_cons.mp hp with ⟨hy, hys⟩
    simp only [insertLe]
    by_cases hxy : le x y = true
    · rw [if_pos hxy]
      refine List.pairwise_cons.mpr ⟨?_, hp⟩
      intro z hz
      rcases List.mem_cons.mp hz with rfl | hz
      · exact hxy
      · exact htrans x y z hxy (hy z hz)
    · rw [if_neg hxy]
      refine List.pairwise_cons.mpr ⟨?_, ih hys⟩
      intro z hz
      rcases mem_insertLe.mp hz with hzx | hz
      · rw [hzx]
        exact htot x y (by simpa using hxy)
      · exact hy z hz

theorem pairwise_sortLe (le : α → α → Bool)
    (htot : ∀ a b, le a b = false → le b a = true)
    (htrans : ∀ a b c, le a b = true → le b c = true → le a c = true)
    (l : List α) : (sortLe le l).Pairwise (fun a b => le a b = true) := by
  induction l with
  | nil => simp [sortLe]
  | cons x xs ih => exact pairwise_insertLe le htot htrans x ih

theorem filter_insertLe_pos {le : α → α → Bool} {p : α → Bool} {x : α}
    (hx : p x = true) (hskip : ∀ b, le x b = false → p b = false) :
    ∀ l : List α, (insertLe le x l).filter p = x :: l.filter p := by
  intro l
  induction l with
  | nil => simp [insertLe, hx]
  | cons y ys ih =>
    simp only [insertLe]
    by_cases hxy : le x y = true
    · rw [if_pos hxy, List.filter_cons_of_pos hx]
    · rw [if_neg hxy]
      have hpy : p y = false := hskip y (by simpa using hxy)
      rw [List.filter_cons_of_neg (by simp [hpy]), ih,
        List.filter_cons_of_neg (by simp [hpy])]

theorem filter_insertLe_neg {le : α → α → Bool} {p : α → Bool} {x : α}
    (hx : p x = false) :
    ∀ l : List α, (insertLe le x l).filter p = l.filter p := by
  intro l
  induction l with
  | nil => simp [insertLe, hx]
  | cons y ys ih =>
    simp only [insertLe]
    by_cases hxy : le x y = true
    · rw [if_pos hxy, List.filter_cons_of_neg (by simp [hx])]
    · rw [if_neg hxy]
      cases hpy : p y with
      | true => rw [List.filter_cons_of_pos hpy, ih, List.filter_cons_of_pos hpy]
      | false => rw [List.filter_cons_of_neg (by simp [hpy]), ih,
          List.filter_cons_of_neg (by simp [hpy])]

/-! Part: Lemmas about the splitter: every stage of the split concatenates back
to its input text -/

theorem splitKeepAux_ne_nil (sep : Str) :
    ∀ (fuel : Nat) (text : Str), splitKeepAux sep fuel text ≠ [] := by
  intro fuel text
  cases fuel with
  | zero => simp [splitKeepAux]
  | succ n =>
    simp only [splitKeepAux]
    split
    · simp
    · split
      · simp
      · simp

theorem flatten_splitKeepAux (sep : Str) :
    ∀ (fuel : Nat) (text : Str), (splitKeepAux sep fuel text).flatten = text := by
  intro fuel
  induction fuel with
  | zero => intro text; simp [splitKeepAux]
  | succ n ih =>
    intro text
    simp only [splitKeepAux]
    split
    · simp
    · rename_i p h
      split
      · rename_i h2
        exact absurd h2 (splitKeepAux_ne_nil sep n _)
      · rename_i q qs h2
        have hj : q ++ qs.flatten = text.drop (p + sep.length) := by
          have hq := ih (text.drop (p + sep.length))
          rw [h2] at hq
          simpa using hq
        have hdec := firstOccur_decomp h
        calc (text.take p :: (sep ++ q) :: qs).flatten
            = text.take p ++ (sep ++ (q ++ qs.flatten)) := by
              simp [List.append_assoc]
          _ = text.take p ++ (sep ++ text.drop (p + sep.length)) := by rw [hj]
          _ = text := by
              rw [← List.append_assoc]
              exact hdec.symm

theorem flatten_splitKeep (sep text : Str) : (splitKeep sep text).flatten = text :=
  flatten_splitKeepAux sep (text.length + 1) text

theorem flatten_chunksOfAux (size : Nat) :
    ∀ (fuel : Nat) (text : Str), (chunksOfAux size fuel text).flatten = text := by
  intro fuel
  induction fuel with
  | zero =>
    intro text
    simp only [chunksOfAux]
    split
    · simp [*]
    · simp
  | succ n ih =>
    intro text
    simp only [chunksOfAux]
    split
    · simp [*]
    · split
      · simp
      · simp [ih]

theorem flatten_chunksOf (size : Nat) (text : Str) : (chunksOf size text).flatten = text :=
  flatten_chunksOfAux size text.length text

theorem flatten_gmAux (size : Nat) :
    ∀ (ps : List Str) (cur : Str), (gmAux size cur ps).flatten = cur ++ ps.flatten := by
  intro ps
  induction ps with
  | nil =>
    intro cur
    simp only [gmAux]
    split
    · simp [*]
    · simp
  | cons p ps ih =>
    intro cur
    simp only [gmAux]
    split
    · simp [ih, *]
    · split
      · rw [ih]
        simp [List.append_assoc]
      · simp [ih, List.append_assoc]

theorem flatten_greedyMerge (size : Nat) (ps : List Str) :
    (greedyMerge size ps).flatten = ps.flatten := by
  simpa using flatten_gmAux size ps []

theorem flatten_flatMap_of_flatten_eq {l : List Str} {f : Str → List Str}
    (h : ∀ g ∈ l, (f g).flatten = g) : (l.flatMap f).flatten = l.flatten := by
  induction l with
  | nil => simp
  | cons g gs ih =>
    simp only [List.flatMap_cons, List.flatten_append, List.flatten_cons]
    rw [h g (by simp), ih (fun g hg => h g (by simp [hg]))]

theorem flatten_recSplit (size : Nat) :
    ∀ (seps : List Str) (text : Str), (recSplit size seps text).flatten = text := by
  intro seps
  induction seps with
  | nil => intro text; exact flatten_chunksOf size text
  | cons sep rest ih =>
    intro text
    simp only [recSplit]
    split
    · simp
    · rw [flatten_flatMap_of_flatten_eq]
      · rw [flatten_greedyMerge, flatten_splitKeep]
      · intro g _
        split
        · simp
        · exact ih g

theorem drop_length_append {pre l : List Char} {n : Nat} (h : pre.length = n) :
    List.drop n (pre ++ l) = l := by
  rw [← h]
  exact List.drop_left pre l

theorem zipWith_drop_withOverlap (ov : Nat) (text : Str) :
    ∀ (bs : List Str) (pos : Nat), pos + bs.flatten.length ≤ text.length →
      List.zipWith (fun o c => List.drop o c)
        (overlapAmounts ov pos bs) (withOverlap ov text pos bs) = bs := by
  intro bs
  induction bs with
  | nil => intro pos _; simp [overlapAmounts, withOverlap]
  | cons c cs ih =>
    intro pos hpos
    simp only [overlapAmounts, withOverlap, List.zipWith_cons_cons]
    have hple : pos ≤ text.length := by
      simp only [List.flatten_cons, List.length_append] at hpos
      omega
    have hlenpre : ((text.drop (pos - min ov pos)).take (min ov pos)).length = min ov pos := by
      rw [List.length_take, List.length_drop]
      have : min ov pos ≤ pos := Nat.min_le_right ov pos
      omega
    rw [drop_length_append hlenpre,
      ih (pos + c.length) (by simp only [List.flatten_cons, List.length_append] at hpos; omega)]

theorem flatten_zipWith_drop_splitText (cs co : Nat) (text : Str) :
    (List.zipWith (fun o c => List.drop o c)
      (chunkOverlapAmounts cs co text) (splitText cs co text)).flatten = text := by
  unfold splitText chunkOverlapAmounts
  rw [zipWith_drop_withOverlap co text (recSplit cs SEPS text) 0
    (by rw [flatten_recSplit]; simp)]
  exact flatten_recSplit cs SEPS text

theorem filter_sortLe (le : α → α → Bool) (p : α → Bool)
    (hskip : ∀ a b, p a = true → le a b = false → p b = false) :
    ∀ l : List α, (sortLe le l).filter p = l.filter p := by
  intro l
  induction l with
  | nil => simp [sortLe]
  | cons x xs ih =>
    simp only [sortLe]
    cases hx : p x with
    | true =>
      rw [filter_insertLe_pos hx (fun b hb => hskip x b hx hb), ih,
        List.filter_cons_of_pos hx]
    | false =>
      rw [filter_insertLe_neg hx, ih, List.filter_cons_of_neg (by simp [hx])]

/-! Part: Lemmas about metadata dictionaries and document splitting -/

theorem lookup_cons_ne {m : List (String × MVal)} {pk k2 : String} {pv : MVal}
    (h : k2 ≠ pk) : ((pk, pv) :: m).lookup k2 = m.lookup k2 := by
  simp only [List.lookup]
  rw [show (k2 == pk) = false from beq_eq_false_iff_ne.mpr h]

theorem lookup_filter_ne {k k2 : String} (h : k2 ≠ k) :
    ∀ m : List (String × MVal), (m.filter (fun p => p.1 != k)).lookup k2 = m.lookup k2 := by
  intro m
  induction m with
  | nil => rfl
  | cons p ps ih =>
    cases p with
    | mk pk pv =>
      by_cases hpk : pk = k
      · rw [List.filter_cons_of_neg (by simp [hpk]), ih,
          lookup_cons_ne (fun hh => h (hh.trans hpk))]
      · rw [List.filter_cons_of_pos (by simp [hpk])]
        by_cases hk2 : k2 = pk
        · subst hk2
          simp [List.lookup]
        · rw [lookup_cons_ne hk2, lookup_cons_ne hk2, ih]

theorem lookup_setKey_self (m : List (String × MVal)) (k : String) (v : MVal) :
    (setKey m k v).lookup k = some v := by
  simp [setKey, List.lookup]

theorem lookup_setKey_ne (m : List (String × MVal)) {k k2 : String} (v : MVal)
    (h : k2 ≠ k) : (setKey m k v).lookup k2 = m.lookup k2 := by
  unfold setKey
  rw [lookup_cons_ne h, lookup_filter_ne h]

theorem qaAdjust_of_not_qa {md : List (String × MVal)} {full ct : Str}
    (h : md.lookup ("type") ≠ some qaTag) : qaAdjust md full ct = ct := by
  unfold qaAdjust
  rw [if_neg]
  intro hcon
  exact h hcon.1

theorem enum_map_snd_comp {l : List α} {f : α → β} :
    l.enum.map (fun p => f p.2) = l.map f := by
  rw [show (fun p : Nat × α => f p.2) = f ∘ Prod.snd from rfl, ← List.map_map,
    List.enum_map_snd]

theorem splitDocument_map_page (cs co : Nat) (doc : PyDoc) :
    (splitDocument cs co doc).map (fun c => c.page_content)
      = (splitText cs co doc.page_content).map (qaAdjust doc.metadata doc.page_content) := by
  unfold splitDocument
  rw [List.map_map]
  show (splitText cs co doc.page_content).enum.map
      (fun p => qaAdjust doc.metadata doc.page_content p.2)
    = (splitText cs co doc.page_content).map (qaAdjust doc.metadata doc.page_content)
  exact enum_map_snd_comp

theorem splitDocument_length (cs co : Nat) (doc : PyDoc) :
    (splitDocument cs co doc).length = (splitText cs co doc.page_content).length := by
  simp [splitDocument]

theorem splitDocument_getElem (cs co : Nat) (doc : PyDoc) {i : Nat} {ct : Str}
    (h : (splitText cs co doc.page_content)[i]? = some ct) :
    (splitDocument cs co doc)[i]? = some
      { page_content := qaAdjust doc.metadata doc.page_content ct,
        metadata := setKey (setKey doc.metadata ("chunk") (MVal.n i))
          ("chunk_total") (MVal.n (splitText cs co doc.page_content).length) } := by
  unfold splitDocument
  rw [List.getElem?_map, List.getElem?_enum, h]
  rfl

/-- C2: for every document and every valid pair (chunk_size > 0,
0 <= chunk_overlap < chunk_size), concatenating the produced chunks with each
one stripped of its overlap prefix, in chunk order, reconstructs the original
text exactly; the Q&A repair is switched off here by requiring the document
type not to be qa. -/
theorem chunk_coverage_reconstruction (cs co : Nat) (doc : PyDoc)
    (h1 : 0 < cs) (h2 : co < cs)
    (h3 : doc.metadata.lookup ("type") ≠ some qaTag) :
    (List.zipWith (fun o c => c.page_content.drop o)
      (chunkOverlapAmounts cs co doc.page_content) (splitDocument cs co doc)).flatten
      = doc.page_content := by
  have hmap : (splitDocument cs co doc).map (fun c => c.page_content)
      = splitText cs co doc.page_content := by
    rw [splitDocument_map_page]
    rw [List.map_congr_left (fun ct _ => qaAdjust_of_not_qa h3)]
    simp
  have hz : List.zipWith (fun o c => c.page_content.drop o)
        (chunkOverlapAmounts cs co doc.page_content) (splitDocument cs co doc)
      = List.zipWith (fun o c => List.drop o c)
        (chunkOverlapAmounts cs co doc.page_content) (splitText cs co doc.page_content) := by
    rw [← hmap, List.zipWith_map_right]
  rw [hz]
  exact flatten_zipWith_drop_splitText cs co doc.page_content

/-- C2 witness: a concrete document split with chunk_size 8 and overlap 3. -/
theorem chunk_coverage_reconstruction_witness :
    0 < 8 ∧ 3 < 8
    ∧ (([] : List (String × MVal)).lookup ("type") ≠ some qaTag)
    ∧ (List.zipWith (fun o c => c.page_content.drop o)
        (chunkOverlapAmounts 8 3 (("hello world").data))
        (splitDocument 8 3 ⟨("hello world").data, []⟩)).flatten
        = ("hello world").data :=
  ⟨by decide, by decide, by decide,
    chunk_coverage_reconstruction 8 3 ⟨("hello world").data, []⟩
      (by decide) (by decide) (by decide)⟩

/-- C9: for every document, splitting emits chunks whose chunk_total metadata
equals the number of chunks produced for that document, and whose chunk
ordinals are exactly the contiguous range 0..chunk_total-1, in order; in
particular chunk < chunk_total for every emitted chunk. -/
theorem chunk_ordinals_contiguous (cs co : Nat) (doc : PyDoc) :
    ((splitDocument cs co doc).map (fun c => c.metadata.lookup ("chunk"))
        = (List.range (splitDocument cs co doc).length).map (fun i => some (MVal.n i)))
    ∧ (∀ c ∈ splitDocument cs co doc,
        c.metadata.lookup ("chunk_total") = some (MVal.n (splitDocument cs co doc).length))
    ∧ (∀ c ∈ splitDocument cs co doc, ∃ i : Nat,
        c.metadata.lookup ("chunk") = some (MVal.n i) ∧ i < (splitDocument cs co doc).length) := by
  have hlen : (splitDocument cs co doc).length = (splitText cs co doc.page_content).length :=
    splitDocument_length cs co doc
  have hchunk : ∀ (i total : Nat),
      (setKey (setKey doc.metadata ("chunk") (MVal.n i)) ("chunk_total") (MVal.n total)).lookup ("chunk")
        = some (MVal.n i) := by
    intro i total
    rw [lookup_setKey_ne _ _ (by decide), lookup_setKey_self]
  have htotal : ∀ (i total : Nat),
      (setKey (setKey doc.metadata ("chunk") (MVal.n i)) ("chunk_total") (MVal.n total)).lookup ("chunk_total")
        = some (MVal.n total) := by
    intro i total
    rw [lookup_setKey_self]
  have hpart1 : (splitDocument cs co doc).map (fun c => c.metadata.lookup ("chunk"))
      = (List.range (splitText cs co doc.page_content).length).map (fun i => some (MVal.n i)) := by
    unfold splitDocument
    rw [List.map_map]
    show (splitText cs co doc.page_content).enum.map
        (fun p => (setKey (setKey doc.metadata ("chunk") (MVal.n p.1)) ("chunk_total")
          (MVal.n (splitText cs co doc.page_content).length)).lookup ("chunk")) = _
    rw [List.map_congr_left
      (fun p _ => hchunk p.1 (splitText cs co doc.page_content).length)]
    rw [show (fun p : Nat × Str => some (MVal.n p.1))
        = (fun i : Nat => some (MVal.n i)) ∘ Prod.fst from rfl, ← List.map_map,
      List.enum_map_fst]
  refine ⟨?_, ?_, ?_⟩
  · rw [hlen]
    exact hpart1
  · intro c hc
    rw [hlen]
    unfold splitDocument at hc
    rcases List.mem_map.mp hc with ⟨p, hp, rfl⟩
    exact htotal p.1 (splitText cs co doc.page_content).length
  · intro c hc
    rw [hlen]
    unfold splitDocument at hc
    rcases List.mem_map.mp hc with ⟨p, hp, rfl⟩
    refine ⟨p.1, hchunk p.1 (splitText cs co doc.page_content).length, ?_⟩
    obtain ⟨i, x⟩ := p
    exact (List.mem_enum hp).1

/-- C3: for a document of type qa, whenever a produced chunk contains the
question marker but not the answer marker, and the answer marker is found in
the original text when searched from the question position, the emitted chunk
is the question part followed by a newline and a non-empty excerpt of at most
200 characters starting with the answer marker, terminated by an ellipsis. -/
theorem qa_repair_appends_answer_excerpt (cs co : Nat) (doc : PyDoc) (i : Nat) (ct : Str)
    (hqa : doc.metadata.lookup ("type") = some qaTag)
    (hct : (splitText cs co doc.page_content)[i]? = some ct)
    (hq : containsSub qMarker ct = true)
    (hna : containsSub aMarker ct = false)
    (ha : pyFind doc.page_content aMarker
        (pyFind doc.page_content (ct.drop (pyFind ct qMarker 0).toNat) 0) ≠ -1) :
    ∃ c : PyDoc, (splitDocument cs co doc)[i]? = some c
      ∧ ∃ ex : Str, c.page_content
            = ct.drop (pyFind ct qMarker 0).toNat ++ '\n' :: (ex ++ ellipsis)
          ∧ ex ≠ [] ∧ aMarker <+: ex ∧ ex.length ≤ 200 := by
  refine ⟨_, splitDocument_getElem cs co doc hct, ?_⟩
  have hadj : qaAdjust doc.metadata doc.page_content ct
      = ct.drop (pyFind ct qMarker 0).toNat ++ '\n' ::
        (((doc.page_content.drop (pyFind doc.page_content aMarker
            (pyFind doc.page_content (ct.drop (pyFind ct qMarker 0).toNat) 0)).toNat).take
          (min 200 (doc.page_content.length - (pyFind doc.page_content aMarker
            (pyFind doc.page_content (ct.drop (pyFind ct qMarker 0).toNat) 0)).toNat))) ++ ellipsis) := by
    simp only [qaAdjust]
    rw [if_pos ⟨hqa, hq, hna⟩, if_neg ha]
  refine ⟨_, hadj, ?_, ?_, ?_⟩
  · have hpre := (pyFind_found ha).2
    rcases hpre with ⟨rest, hrest⟩
    have h3 : 3 ≤ min 200 ((doc.page_content.drop (pyFind doc.page_content aMarker
        (pyFind doc.page_content (ct.drop (pyFind ct qMarker 0).toNat) 0)).toNat).length) := by
      have := congrArg List.length hrest
      simp only [List.length_append] at this
      have haM : aMarker.length = 3 := by decide
      omega
    intro hnil
    have := congrArg List.length hnil
    rw [List.length_take, List.length_drop] at this
    rw [List.length_drop] at h3
    simp at this
    omega
  · have hpre := (pyFind_found ha).2
    rcases hpre with ⟨rest, hrest⟩
    rw [← hrest]
    have haM : aMarker.length = 3 := by decide
    have h3 : 3 ≤ min 200 (doc.page_content.length - (pyFind doc.page_content aMarker
        (pyFind doc.page_content (ct.drop (pyFind ct qMarker 0).toNat) 0)).toNat) := by
      have hlen := congrArg List.length hrest
      simp only [List.length_append, List.length_drop] at hlen
      omega
    rw [List.take_append_eq_append_take, List.take_of_length_le (by omega)]
    exact ⟨_, rfl⟩
  · rw [List.length_take]
    omega

/-- C3 witness: the section 8 example, split small enough to separate the
question from its answer. -/
theorem qa_repair_appends_answer_excerpt_witness :
    ((([(("type" : String), qaTag)]) : List (String × MVal)).lookup ("type") = some qaTag)
    ∧ ((splitText 15 0 (("Q: What is X?\nA: X is a widget used for...").data))[0]?
        = some (("Q: What is X?").data))
    ∧ containsSub qMarker (("Q: What is X?").data) = true
    ∧ containsSub aMarker (("Q: What is X?").data) = false
    ∧ (∃ c : PyDoc,
        (splitDocument 15 0 ⟨("Q: What is X?\nA: X is a widget used for...").data,
            [(("type" : String), qaTag)]⟩)[0]? = some c
        ∧ ∃ ex : Str, c.page_content
            = (("Q: What is X?").data).drop
                (pyFind (("Q: What is X?").data) qMarker 0).toNat ++ '\n' :: (ex ++ ellipsis)
          ∧ ex ≠ [] ∧ aMarker <+: ex ∧ ex.length ≤ 200) :=
  ⟨by decide, by decide, by decide, by decide,
    qa_repair_appends_answer_excerpt 15 0
      ⟨("Q: What is X?\nA: X is a widget used for...").data, [(("type" : String), qaTag)]⟩
      0 (("Q: What is X?").data)
      (by decide) (by decide) (by decide) (by decide) (by decide)⟩

/-! Part: Lemmas about the vector search and the orchestrator -/

theorem pointLe_total : ∀ a b : ScoredPoint, pointLe a b = false → pointLe b a = true := by
  intro a b hab
  simp only [pointLe, decide_eq_false_iff_not, not_or, not_and, not_le] at hab
  simp only [pointLe, decide_eq_true_eq]
  rcases hab with ⟨h1, h2⟩
  rcases lt_trichotomy a.score b.score with hlt | heq | hgt
  · exact Or.inl hlt
  · exact Or.inr ⟨heq.symm, Nat.le_of_lt (h2 heq)⟩
  · exact absurd hgt h1

theorem pointLe_trans : ∀ a b c : ScoredPoint,
    pointLe a b = true → pointLe b c = true → pointLe a c = true := by
  intro a b c hab hbc
  simp only [pointLe, decide_eq_true_eq] at hab hbc ⊢
  rcases hab with h1 | ⟨e1, i1⟩
  · rcases hbc with h2 | ⟨e2, i2⟩
    · exact Or.inl (h2.trans h1)
    · exact Or.inl (e2 ▸ h1)
  · rcases hbc with h2 | ⟨e2, i2⟩
    · exact Or.inl (e1 ▸ h2)
    · exact Or.inr ⟨e1.trans e2, i1.trans i2⟩

theorem clientSearch_spec (store : List ScoredPoint)
    (qf : Option (List (String × MVal))) (limit : Nat) (θ : ℚ)
    (hids : (store.map (fun p => p.id)).Nodup) :
    (clientSearch store qf limit (some θ)).length ≤ limit
    ∧ (∀ r ∈ clientSearch store qf limit (some θ), θ ≤ r.score)
    ∧ (clientSearch store qf limit (some θ)).Pairwise
        (fun a b => b.score < a.score ∨ (a.score = b.score ∧ a.id < b.id)) := by
  unfold clientSearch
  refine ⟨List.length_take_le limit _, ?_, ?_⟩
  · intro r hr
    have hr2 : r ∈ sortLe pointLe (store.filter
        (fun p => filterMatches qf p.payload && thresholdOk (some θ) p)) :=
      List.mem_of_mem_take hr
    have hr3 := (sortLe_perm pointLe _).mem_iff.mp hr2
    have hok := List.of_mem_filter hr3
    have := (Bool.and_eq_true _ _).mp hok
    have hth := this.2
    simpa [thresholdOk] using hth
  · have hsorted := pairwise_sortLe pointLe pointLe_total pointLe_trans
      (store.filter (fun p => filterMatches qf p.payload && thresholdOk (some θ) p))
    have htake := hsorted.sublist (List.take_sublist limit _)
    have hfil : ((store.filter
        (fun p => filterMatches qf p.payload && thresholdOk (some θ) p)).map
          (fun p => p.id)).Nodup :=
      hids.sublist ((List.filter_sublist store).map (fun p => p.id))
    have hperm := (sortLe_perm pointLe (store.filter
        (fun p => filterMatches qf p.payload && thresholdOk (some θ) p))).map (fun p => p.id)
    have hsortnodup := hperm.nodup_iff.mpr hfil
    have hnodup : (((sortLe pointLe (store.filter
        (fun p => filterMatches qf p.payload && thresholdOk (some θ) p))).take limit).map
          (fun p => p.id)).Nodup :=
      hsortnodup.sublist (List.Sublist.map (fun p : ScoredPoint => p.id)
        (List.take_sublist limit (sortLe pointLe (store.filter
          (fun p => filterMatches qf p.payload && thresholdOk (some θ) p)))))
    have hne2 := List.pairwise_map.mp hnodup
    have hand := List.pairwise_and_iff.mpr ⟨htake, hne2⟩
    refine hand.imp ?_
    intro a b hab
    rcases hab with ⟨hle, hneq⟩
    simp only [pointLe, decide_eq_true_eq] at hle
    rcases hle with h | ⟨he, hi⟩
    · exact Or.inl h
    · exact Or.inr ⟨he, Nat.lt_of_le_of_ne hi hneq⟩

/-- C1: for every search call with top_k > 0 over a backend whose point ids
are distinct, search_vectors returns at most top_k results; with a score
threshold supplied, every returned result has score at least the threshold;
and results come ordered by descending similarity, ties broken by ascending
id. -/
theorem search_vectors_topk_threshold_order (store : List ScoredPoint)
    (filter_params : Option (List (String × MVal))) (top_k : Nat) (θ : ℚ)
    (htop : 0 < top_k) (hids : (store.map (fun p => p.id)).Nodup) :
    (search_vectors store filter_params top_k (some θ)).length ≤ top_k
    ∧ (∀ r ∈ search_vectors store filter_params top_k (some θ), θ ≤ r.score)
    ∧ (search_vectors store filter_params top_k (some θ)).Pairwise
        (fun a b => b.score < a.score ∨ (a.score = b.score ∧ a.id < b.id)) := by
  unfold search_vectors
  exact clientSearch_spec store _ top_k θ hids

/-- C1 witness: the specification example, a backend with matches at scores
0.95, 0.72 and 0.65 searched with threshold 0.7 and top_k 5: exactly the
first two are returned, in that order. -/
theorem search_vectors_topk_threshold_order_witness :
    0 < 5
    ∧ (([⟨1, mkRat 95 100, []⟩, ⟨2, mkRat 72 100, []⟩, ⟨3, mkRat 65 100, []⟩]
        : List ScoredPoint).map (fun p => p.id)).Nodup
    ∧ search_vectors [⟨1, mkRat 95 100, []⟩, ⟨2, mkRat 72 100, []⟩, ⟨3, mkRat 65 100, []⟩]
        none 5 (some (mkRat 7 10))
      = [⟨1, mkRat 95 100, []⟩, ⟨2, mkRat 72 100, []⟩]
    ∧ (search_vectors [⟨1, mkRat 95 100, []⟩, ⟨2, mkRat 72 100, []⟩, ⟨3, mkRat 65 100, []⟩]
        none 5 (some (mkRat 7 10))).length ≤ 5
    ∧ (∀ r ∈ search_vectors [⟨1, mkRat 95 100, []⟩, ⟨2, mkRat 72 100, []⟩, ⟨3, mkRat 65 100, []⟩]
        none 5 (some (mkRat 7 10)), mkRat 7 10 ≤ r.score)
    ∧ (search_vectors [⟨1, mkRat 95 100, []⟩, ⟨2, mkRat 72 100, []⟩, ⟨3, mkRat 65 100, []⟩]
        none 5 (some (mkRat 7 10))).Pairwise
        (fun a b => b.score < a.score ∨ (a.score = b.score ∧ a.id < b.id)) :=
  ⟨by decide, by decide, by decide,
    (search_vectors_topk_threshold_order _ none 5 (mkRat 7 10) (by decide) (by decide)).1,
    (search_vectors_topk_threshold_order _ none 5 (mkRat 7 10) (by decide) (by decide)).2.1,
    (search_vectors_topk_threshold_order _ none 5 (mkRat 7 10) (by decide) (by decide)).2.2⟩

theorem rag_query_eq_of_query_qdrant {so : Except PyErr (List ScoredPoint)}
    {res : List CtxDoc} (hres : query_qdrant so = Except.ok res)
    (llm_chain : Option (Str → Str → Except PyErr Str)) (q : Str) :
    rag_query so llm_chain q
      = if res = [] then Except.ok ⟨q, [], [], some cannedNoInfo⟩
        else
          match llm_chain with
          | none => Except.ok ⟨q, format_context res, res.map (fun r => r.source), none⟩
          | some chain =>
            match chain (format_context res) q with
            | Except.ok answer =>
              Except.ok ⟨q, format_context res, res.map (fun r => r.source), some answer⟩
            | Except.error _ =>
              Except.ok ⟨q, format_context res, res.map (fun r => r.source),
                some answerErrorPlaceholder⟩ := by
  unfold rag_query
  rw [hres]

/-- C4: whenever the search step yields zero usable results, rag_query
returns the bundle with empty sources, empty context and the non-empty canned
answer, for every configured generator alike (so no generation call can be
observed), and it does not raise. -/
theorem rag_query_empty_results_canned_bundle (so : Except PyErr (List ScoredPoint))
    (h : query_qdrant so = Except.ok []) :
    cannedNoInfo ≠ []
    ∧ ∀ (llm_chain : Option (Str → Str → Except PyErr Str)) (q : Str),
        rag_query so llm_chain q = Except.ok ⟨q, [], [], some cannedNoInfo⟩ := by
  refine ⟨by decide, ?_⟩
  intro llm q
  rw [rag_query_eq_of_query_qdrant h llm q]
  rfl

/-- C4 witness: an empty backend result, with a generator that would raise if
it were called. -/
theorem rag_query_empty_results_canned_bundle_witness :
    query_qdrant (Except.ok []) = Except.ok []
    ∧ rag_query (Except.ok []) (some (fun _ _ => Except.error PyErr.otherError)) (("q").data)
        = Except.ok ⟨("q").data, [], [], some cannedNoInfo⟩
    ∧ cannedNoInfo ≠ [] :=
  ⟨rfl, (rag_query_empty_results_canned_bundle (Except.ok []) rfl).2 _ _,
    (rag_query_empty_results_canned_bundle (Except.ok []) rfl).1⟩

/-- C5 counterexample: a failed search reaches the caller of rag_query as an
error; the result is not a bundle with zero sources, contradicting the claim
that the orchestrator treats a failed search as no results and never crashes
the query path. -/
theorem rag_query_search_failure_propagates_cex :
    exceptIsOk (rag_query (Except.error PyErr.retrievalError) none (("q").data)) = false := rfl

/-- C5 amended: a search failure propagates out of rag_query unchanged; the
function has no handler converting it into an empty-result bundle. -/
theorem rag_query_search_failure_propagates (e : PyErr)
    (llm_chain : Option (Str → Str → Except PyErr Str)) (q : Str) :
    rag_query (Except.error e) llm_chain q = Except.error e := rfl

/-- C6 counterexample: create_collection with dimension 0 does not fail with
a ConfigurationError; it creates the collection with vector size 0. -/
theorem create_collection_dim_zero_cex :
    create_collection [] 0 ("docs") false
      = Except.ok [⟨("docs"), 0, [("product"), ("type")]⟩] := rfl

/-- C6 amended: create_collection performs no dimension validation; every
call succeeds without a ConfigurationError, and a collection whose name is
new is recorded with the given dimension, nonpositive dimensions included. -/
theorem create_collection_no_dimension_validation (st : List CollectionRec)
    (d : Int) (nm : String) (r : Bool) :
    exceptIsOk (create_collection st d nm r) = true
    ∧ (nm ∉ st.map (fun c => c.name) →
        create_collection st d nm r = Except.ok (st ++ [⟨nm, d, [("product"), ("type")]⟩])) := by
  constructor
  · simp only [create_collection]
    split
    · split <;> rfl
    · rfl
  · intro hnm
    simp only [create_collection]
    rw [if_neg hnm]

/-- C6 witness: creating a collection with dimension -1 in an empty backend
succeeds and records the collection. -/
theorem create_collection_no_dimension_validation_witness :
    (("docs" : String) ∉ ([] : List CollectionRec).map (fun c => c.name))
    ∧ exceptIsOk (create_collection [] (-1) ("docs") false) = true
    ∧ create_collection [] (-1) ("docs") false
        = Except.ok [⟨("docs"), -1, [("product"), ("type")]⟩] :=
  ⟨by decide, (create_collection_no_dimension_validation [] (-1) ("docs") false).1,
    by
      have h2 := (create_collection_no_dimension_validation [] (-1) ("docs") false).2
        (by decide)
      simpa using h2⟩

/-- C7 counterexample: with one usable search hit and no configured
answer-generation collaborator, rag_query returns the bundle with no answer
at all, not the claimed error placeholder. -/
theorem rag_query_llm_unavailable_cex :
    Except.map (fun b => b.answer)
      (rag_query (Except.ok [⟨1, mkRat 1 1,
          [(("text"), MVal.s (("t").data)), (("source"), MVal.s (("s").data))]⟩])
        none (("q").data))
      = Except.ok none := rfl

/-- C7 amended: with at least one usable result, a raising generation
collaborator is absorbed into the error placeholder and nothing is raised to
the caller; an unavailable collaborator yields the bundle with no answer
field, again without raising. -/
theorem rag_query_llm_failure_placeholder (so : Except PyErr (List ScoredPoint))
    (res : List CtxDoc) (hres : query_qdrant so = Except.ok res) (hne : res ≠ []) (q : Str) :
    rag_query so none q
        = Except.ok ⟨q, format_context res, res.map (fun r => r.source), none⟩
    ∧ ∀ (gen : Str → Str → Except PyErr Str) (e : PyErr),
        gen (format_context res) q = Except.error e →
        rag_query so (some gen) q
          = Except.ok ⟨q, format_context res, res.map (fun r => r.source),
              some answerErrorPlaceholder⟩ := by
  constructor
  · rw [rag_query_eq_of_query_qdrant hres none q, if_neg hne]
  · intro gen e hgen
    rw [rag_query_eq_of_query_qdrant hres (some gen) q, if_neg hne]
    simp only [hgen]

/-- C7 witness: a concrete hit and a generator that raises. -/
theorem rag_query_llm_failure_placeholder_witness :
    query_qdrant (Except.ok [⟨1, mkRat 1 1,
        [(("text"), MVal.s (("t").data)), (("source"), MVal.s (("s").data))]⟩])
      = Except.ok [⟨("t").data, ("s").data, [], mkRat 1 1, 1⟩]
    ∧ ([(⟨("t").data, ("s").data, [], mkRat 1 1, 1⟩ : CtxDoc)] ≠ [])
    ∧ ((fun _ _ => Except.error PyErr.otherError : Str → Str → Except PyErr Str)
        (format_context [⟨("t").data, ("s").data, [], mkRat 1 1, 1⟩]) (("q").data)
        = Except.error PyErr.otherError)
    ∧ rag_query (Except.ok [⟨1, mkRat 1 1,
        [(("text"), MVal.s (("t").data)), (("source"), MVal.s (("s").data))]⟩])
        (some (fun _ _ => Except.error PyErr.otherError)) (("q").data)
      = Except.ok ⟨("q").data,
          format_context [⟨("t").data, ("s").data, [], mkRat 1 1, 1⟩],
          [("s").data], some answerErrorPlaceholder⟩ :=
  ⟨rfl, by decide, rfl,
    by
      have h4 := (rag_query_llm_failure_placeholder
          (Except.ok [⟨1, mkRat 1 1,
            [(("text"), MVal.s (("t").data)), (("source"), MVal.s (("s").data))]⟩])
          [⟨("t").data, ("s").data, [], mkRat 1 1, 1⟩]
          rfl (by decide) (("q").data)).2
          (fun _ _ => Except.error PyErr.otherError) PyErr.otherError rfl
      simpa using h4⟩

theorem query_qdrant_ok (rs : List ScoredPoint) :
    query_qdrant (Except.ok rs) = Except.ok (rs.filterMap (fun r =>
      match r.payload.lookup (("text")) with
      | some v => some ⟨strOf v, getStr r.payload ("source"), getStr r.payload ("product"),
          r.score, r.id⟩
      | none => none)) := rfl

theorem filterMap_text_filter (F : ScoredPoint → Option CtxDoc)
    (hF : ∀ r, r.payload.lookup ("text") = none → F r = none) :
    ∀ hits : List ScoredPoint,
      (hits.filter (fun r => (r.payload.lookup ("text")).isSome)).filterMap F
        = hits.filterMap F := by
  intro hits
  induction hits with
  | nil => rfl
  | cons r t ih =>
    rcases hl : r.payload.lookup ("text") with _ | v
    · rw [List.filter_cons_of_neg (by simp [hl]), ih, List.filterMap_cons, hF r hl]
    · rw [List.filter_cons_of_pos (by simp [hl]), List.filterMap_cons, List.filterMap_cons, ih]

/-- C10: a search hit whose payload lacks a text key contributes nothing to
the orchestrator: dropping all such hits leaves query_qdrant unchanged, and
when every hit lacks the key, rag_query returns the empty-result bundle with
the canned answer even though the backend returned matches. -/
theorem textless_hits_dropped :
    (∀ hits : List ScoredPoint,
        query_qdrant (Except.ok (hits.filter (fun r => (r.payload.lookup (("text"))).isSome)))
          = query_qdrant (Except.ok hits))
    ∧ ∀ hits : List ScoredPoint, (∀ r ∈ hits, r.payload.lookup (("text")) = none) →
        hits ≠ [] →
        ∀ (llm_chain : Option (Str → Str → Except PyErr Str)) (q : Str),
          rag_query (Except.ok hits) llm_chain q = Except.ok ⟨q, [], [], some cannedNoInfo⟩ := by
  constructor
  · intro hits
    rw [query_qdrant_ok, query_qdrant_ok]
    exact congrArg Except.ok (filterMap_text_filter _ (fun r hr => by rw [hr]) hits)
  · intro hits hall hne llm q
    have hres : query_qdrant (Except.ok hits) = Except.ok [] := by
      rw [query_qdrant_ok]
      refine congrArg Except.ok ?_
      rw [List.filterMap_eq_nil_iff]
      intro r hr
      rw [hall r hr]
    rw [rag_query_eq_of_query_qdrant hres llm q]
    rfl

/-- C10 witness: a single hit with a payload that has a source but no text
key yields the canned empty bundle. -/
theorem textless_hits_dropped_witness :
    (∀ r ∈ [(⟨7, mkRat 9 10, [(("source"), MVal.s (("doc.txt").data))]⟩ : ScoredPoint)],
        r.payload.lookup (("text")) = none)
    ∧ ([(⟨7, mkRat 9 10, [(("source"), MVal.s (("doc.txt").data))]⟩ : ScoredPoint)] ≠ [])
    ∧ rag_query (Except.ok [⟨7, mkRat 9 10, [(("source"), MVal.s (("doc.txt").data))]⟩])
        none (("q").data)
      = Except.ok ⟨("q").data, [], [], some cannedNoInfo⟩ :=
  ⟨by decide, by decide,
    textless_hits_dropped.2 _ (by decide) (by decide) none (("q").data)⟩

/-! Part: Lemmas about the metadata extractor ranking -/

theorem countLe_total : ∀ a b : Str × Nat, countLe a b = false → countLe b a = true := by
  intro a b h
  simp only [countLe, decide_eq_false_iff_not, not_le] at h
  simp only [countLe, decide_eq_true_eq]
  omega

theorem countLe_trans : ∀ a b c : Str × Nat,
    countLe a b = true → countLe b c = true → countLe a c = true := by
  intro a b c h1 h2
  simp only [countLe, decide_eq_true_eq] at h1 h2 ⊢
  omega

theorem pairIfFound_snd {content : Str} :
    ∀ {terms : List Str}, ∀ x ∈ terms.filterMap (pairIfFound content),
      x.2 = countMatches x.1 content := by
  intro terms
  induction terms with
  | nil => intro x hx; simp at hx
  | cons t ts ih =>
    intro x hx
    rw [List.filterMap_cons] at hx
    rcases hpc : pairIfFound content t with _ | y
    · rw [hpc] at hx
      exact ih x hx
    · rw [hpc] at hx
      rcases List.mem_cons.mp hx with rfl | hx2
      · simp only [pairIfFound] at hpc
        split at hpc
        · cases hpc
          rfl
        · cases hpc
      · exact ih x hx2

theorem map_fst_pairIfFound {content : Str} :
    ∀ terms : List Str, (terms.filterMap (pairIfFound content)).map Prod.fst
      = terms.filter (fun t => decide (0 < countMatches t content)) := by
  intro terms
  induction terms with
  | nil => rfl
  | cons t ts ih =>
    rw [List.filterMap_cons, List.filter_cons]
    by_cases hc : 0 < countMatches t content
    · rw [show pairIfFound content t = some (t, countMatches t content) from by
        simp only [pairIfFound]
        rw [if_pos hc]]
      rw [if_pos (by simpa using hc)]
      simp only [List.map_cons]
      rw [ih]
    · rw [show pairIfFound content t = none from by
        simp only [pairIfFound]
        rw [if_neg hc]]
      rw [if_neg (by simpa using hc)]
      exact ih

theorem rank_spec (content : Str) (terms : List Str) :
    List.Perm ((sortLe countLe (terms.filterMap (pairIfFound content))).map Prod.fst)
        (terms.filter (fun t => decide (0 < countMatches t content)))
    ∧ ((sortLe countLe (terms.filterMap (pairIfFound content))).map Prod.fst).Pairwise
        (fun a b => countMatches b content ≤ countMatches a content)
    ∧ ∀ c : Nat,
        ((sortLe countLe (terms.filterMap (pairIfFound content))).map Prod.fst).filter
            (fun t => countMatches t content == c)
          = (terms.filter (fun t => decide (0 < countMatches t content))).filter
              (fun t => countMatches t content == c) := by
  refine ⟨?_, ?_, ?_⟩
  · have hperm := (sortLe_perm countLe (terms.filterMap (pairIfFound content))).map Prod.fst
    rw [map_fst_pairIfFound terms] at hperm
    exact hperm
  · have hsorted := pairwise_sortLe countLe countLe_total countLe_trans
      (terms.filterMap (pairIfFound content))
    rw [List.pairwise_map]
    refine hsorted.imp_of_mem ?_
    intro a b ha hb hab
    have ha2 := pairIfFound_snd a ((sortLe_perm countLe _).mem_iff.mp ha)
    have hb2 := pairIfFound_snd b ((sortLe_perm countLe _).mem_iff.mp hb)
    simp only [countLe, decide_eq_true_eq] at hab
    rw [← ha2, ← hb2]
    exact hab
  · intro c
    rw [List.filter_map]
    have hcong1 : (sortLe countLe (terms.filterMap (pairIfFound content))).filter
        ((fun t => countMatches t content == c) ∘ Prod.fst)
        = (sortLe countLe (terms.filterMap (pairIfFound content))).filter
          (fun x => x.2 == c) := by
      apply List.filter_congr
      intro x hx
      have hx2 := pairIfFound_snd x ((sortLe_perm countLe _).mem_iff.mp hx)
      simp only [Function.comp_apply]
      rw [hx2]
    rw [hcong1]
    rw [filter_sortLe countLe (fun x => x.2 == c) (by
      intro a b hpa hle
      simp only [countLe, decide_eq_false_iff_not, not_le] at hle
      have ha3 : a.2 = c := by simpa using hpa
      have hb3 : b.2 ≠ c := by omega
      simpa using hb3)]
    have hcong2 : (terms.filterMap (pairIfFound content)).filter (fun x => x.2 == c)
        = (terms.filterMap (pairIfFound content)).filter
          ((fun t => countMatches t content == c) ∘ Prod.fst) := by
      apply List.filter_congr
      intro x hx
      simp only [Function.comp_apply]
      rw [pairIfFound_snd x hx]
    rw [hcong2, ← List.filter_map, map_fst_pairIfFound terms]

theorem lookup_if_qa {m : List (String × MVal)} {b : Bool} {k : String}
    (hk : k ≠ ("type")) :
    List.lookup k (if b then setKey m ("type") (MVal.s (("qa").data)) else m)
      = m.lookup k := by
  cases b
  · rfl
  · exact lookup_setKey_ne m _ hk

theorem lookup_topics_branch {m : List (String × MVal)} (topics : List Str) {k : String}
    (h1 : k ≠ ("topic")) (h2 : k ≠ ("all_topics")) :
    List.lookup k (match topics with
      | [] => m
      | t :: _ => setKey (setKey m ("topic") (MVal.s t)) ("all_topics") (MVal.list topics))
      = m.lookup k := by
  cases topics
  · rfl
  · rw [lookup_setKey_ne _ _ h2, lookup_setKey_ne _ _ h1]

theorem lookup_products_branch {m : List (String × MVal)} (products : List Str) {k : String}
    (h1 : k ≠ ("product")) (h2 : k ≠ ("all_products")) :
    List.lookup k (match products with
      | [] => m
      | p :: _ => setKey (setKey m ("product") (MVal.s p)) ("all_products") (MVal.list products))
      = m.lookup k := by
  cases products
  · rfl
  · rw [lookup_setKey_ne _ _ h2, lookup_setKey_ne _ _ h1]

theorem extract_metadata_lookups (content : Str) :
    ((extract_metadata_from_content content).lookup ("product")
        = (extract_product_references content).head?.map MVal.s)
    ∧ ((extract_metadata_from_content content).lookup ("all_products")
        = (if extract_product_references content = [] then none
           else some (MVal.list (extract_product_references content))))
    ∧ ((extract_metadata_from_content content).lookup ("topic")
        = (extract_topics content).head?.map MVal.s)
    ∧ ((extract_metadata_from_content content).lookup ("all_topics")
        = (if extract_topics content = [] then none
           else some (MVal.list (extract_topics content)))) := by
  simp only [extract_metadata_from_content]
  refine ⟨?_, ?_, ?_, ?_⟩
  · rw [lookup_if_qa (by decide), lookup_topics_branch _ (by decide) (by decide)]
    rcases hp : extract_product_references content with _ | ⟨p, ps⟩
    · rfl
    · rw [lookup_setKey_ne _ _ (by decide), lookup_setKey_self]
      rfl
  · rw [lookup_if_qa (by decide), lookup_topics_branch _ (by decide) (by decide)]
    rcases hp : extract_product_references content with _ | ⟨p, ps⟩
    · rfl
    · rw [lookup_setKey_self]
      rfl
  · rw [lookup_if_qa (by decide)]
    rcases ht : extract_topics content with _ | ⟨t, ts⟩
    · rw [lookup_products_branch _ (by decide) (by decide)]
      rfl
    · rw [lookup_setKey_ne _ _ (by decide), lookup_setKey_self]
      rfl
  · rw [lookup_if_qa (by decide)]
    rcases ht : extract_topics content with _ | ⟨t, ts⟩
    · rw [lookup_products_branch _ (by decide) (by decide)]
      rfl
    · rw [lookup_setKey_self]
      rfl

/-- C8: for every input text, the Metadata Extractor keeps exactly the
reference terms with a positive whole-word, case-sensitive occurrence count,
orders them by descending count with the original list order as a stable
tie-break, and emits the product/topic keys exactly when a term was found:
product is the top product term, all_products the full ranked list, and the
topic keys analogously; absent any hit the keys are omitted. -/
theorem extract_metadata_ranking (content : Str) :
    List.Perm (extract_product_references content)
        (CYANVIEW_PRODUCTS.filter (fun t => decide (0 < countMatches t content)))
    ∧ (extract_product_references content).Pairwise
        (fun a b => countMatches b content ≤ countMatches a content)
    ∧ (∀ c : Nat, (extract_product_references content).filter
          (fun t => countMatches t content == c)
        = (CYANVIEW_PRODUCTS.filter (fun t => decide (0 < countMatches t content))).filter
            (fun t => countMatches t content == c))
    ∧ List.Perm (extract_topics content)
        (CYANVIEW_TOPICS.filter (fun t => decide (0 < countMatches t content)))
    ∧ (extract_topics content).Pairwise
        (fun a b => countMatches b content ≤ countMatches a content)
    ∧ (∀ c : Nat, (extract_topics content).filter
          (fun t => countMatches t content == c)
        = (CYANVIEW_TOPICS.filter (fun t => decide (0 < countMatches t content))).filter
            (fun t => countMatches t content == c))
    ∧ ((extract_metadata_from_content content).lookup ("product")
        = (extract_product_references content).head?.map MVal.s)
    ∧ ((extract_metadata_from_content content).lookup ("all_products")
        = (if extract_product_references content = [] then none
           else some (MVal.list (extract_product_references content))))
    ∧ ((extract_metadata_from_content content).lookup ("topic")
        = (extract_topics content).head?.map MVal.s)
    ∧ ((extract_metadata_from_content content).lookup ("all_topics")
        = (if extract_topics content = [] then none
           else some (MVal.list (extract_topics content)))) := by
  obtain ⟨hp1, hp2, hp3⟩ := rank_spec content CYANVIEW_PRODUCTS
  obtain ⟨ht1, ht2, ht3⟩ := rank_spec content CYANVIEW_TOPICS
  obtain ⟨hm1, hm2, hm3, hm4⟩ := extract_metadata_lookups content
  exact ⟨hp1, hp2, hp3, ht1, ht2, ht3, hm1, hm2, hm3, hm4⟩

end Cyrag
